import Mathlib

/-!
Shallow embedding of the rummelplatz io_uring driver core
(src/src/lib.rs): the submission-queue submitter with backlog spill,
the heap-tagged user-data token codec, the event-loop completion
dispatch, the backlog drain, and the shutdown (cancel + barrier)
protocol generated by the io_uring macro.

Machine integers are modelled as Nat with explicit truncation where the
source casts (usize -> u32).  Fallible operations return Except or pair
the result with the unchanged state, mirroring Rust functions that take
&mut self and return Result.
-/

namespace Rummelplatz

/-- Completion-queue MORE flag bit, `IORING_CQE_F_MORE = 2` (lib.rs:49);
io_uring cqueue more(flags) tests this bit. -/
def IORING_CQE_F_MORE : Nat := 2

/-- io_uring cqueue more: true when the MORE bit is set in the CQE flags. -/
def moreFlag (flags : Nat) : Bool := flags &&& IORING_CQE_F_MORE ≠ 0

/-- Submission-queue drain flag bit of the kernel ABI,
IOSQE_IO_DRAIN = 1 <<< 1.  The source never sets it; it is needed to
state what the spec claims about the shutdown barrier. -/
def IOSQE_IO_DRAIN : Nat := 2

/-- io_uring Timespec, only the fields the source sets. -/
structure Timespec where
  sec : Nat
  nsec : Nat
deriving DecidableEq, Repr

/-- `SHUTDOWN_TIMEOUT: Timespec = Timespec::new().sec(5)` (lib.rs:198). -/
def SHUTDOWN_TIMEOUT : Timespec := ⟨5, 0⟩

/-- The opcodes the core itself builds (lib.rs:395-405); handler-built
entries are opaque to the core and get the `opaqueOp` constructor. -/
inductive OpcodeKind where
  | opaqueOp (code : Nat)
  | asyncCancelAny
  | nop
  | timeout (ts : Timespec) (count : Nat)
deriving DecidableEq, Repr

/-- A submission-queue entry as the core sees it: an opcode payload, the
squeue flags byte, and the 64-bit user-data word.  io_uring entry
builders produce flags = 0; `.user_data(w)` and `.flags(f)` update the
respective field. -/
structure SqEntry where
  opcode : OpcodeKind
  flags : Nat
  userData : Nat
deriving DecidableEq, Repr

/-- io_uring `Entry::user_data`: returns the entry with the word set. -/
def SqEntry.withUserData (e : SqEntry) (w : Nat) : SqEntry :=
  { e with userData := w }

/-- `AsyncCancel2::new(CancelBuilder::any()).build()` — flags 0,
user-data 0 until set. -/
def buildAsyncCancelAny : SqEntry := ⟨.asyncCancelAny, 0, 0⟩

/-- `Nop::new().build()` — flags 0, user-data 0 until set. -/
def buildNop : SqEntry := ⟨.nop, 0, 0⟩

/-- `Timeout::new(&ts).count(c).build()` — flags 0, user-data 0 until set. -/
def buildTimeout (ts : Timespec) (count : Nat) : SqEntry :=
  ⟨.timeout ts count, 0, 0⟩

/-! ## The token codec (macro-generated UserData, lib.rs:210-234)

The macro generates one variant per declared slot plus `Cancel(u64)`.
We model the slot discriminant as a Nat index and give every slot the
payload type `P` (the per-slot payload types play no role in the
claims).  `From<UserData> for u64` boxes the value and transmutes the
owning pointer to an integer; `from_raw` transmutes back.  The heap of
live boxes is modelled explicitly as an association list from addresses
to tokens; allocation hands out fresh non-zero addresses (a Box pointer
is never null, and 0 is the reserved drop-marker word). -/

/-- The macro-generated UserData enum: one `op` variant per slot
(discriminant `i`, payload `p`) plus `cancel`. -/
inductive Token (P : Type) where
  | op (i : Nat) (p : P)
  | cancel (u : Nat)
deriving DecidableEq, Repr

/-- `u64::MAX`, the drain-barrier sentinel payload. -/
def U64_MAX : Nat := 2 ^ 64 - 1

/-- The heap of live boxed tokens: a fresh-address counter (starting at 1,
so no address is the reserved word 0) and the association list of live
allocations. -/
structure Heap (P : Type) where
  next : Nat
  mem : List (Nat × Token P)
deriving Repr

/-- The empty heap. -/
def Heap.empty (P : Type) : Heap P := ⟨1, []⟩

/-- `Box::new(t)` + transmute to u64 (lib.rs:215-227): allocate a fresh
address for the token and return the address word. -/
def Heap.alloc (h : Heap P) (t : Token P) : Nat × Heap P :=
  (h.next, ⟨h.next + 1, (h.next, t) :: h.mem⟩)

/-- `UserData::from_raw` (lib.rs:229-234): read the box behind the word.
Returns none when the word is not a live allocation (in the source this
would be undefined behaviour; the event-loop invariant rules it out). -/
def Heap.lookup (h : Heap P) (w : Nat) : Option (Token P) :=
  (h.mem.find? (fun c => c.1 = w)).map (fun c => c.2)

/-- Dropping the decoded Box: the allocation behind the word is released. -/
def Heap.free (h : Heap P) (w : Nat) : Heap P :=
  { h with mem := h.mem.filter (fun c => c.1 ≠ w) }

/-- `*user_data = ...` (lib.rs:368): overwrite the token behind the word
in place; the allocation itself survives. -/
def Heap.update (h : Heap P) (w : Nat) (t : Token P) : Heap P :=
  { h with mem := h.mem.map (fun c => if c.1 = w then (w, t) else c) }

/-- Heap well-formedness: every live address is non-zero and below the
fresh-address counter (so allocation never reuses a live address). -/
def Heap.WF (h : Heap P) : Prop :=
  ∀ c ∈ h.mem, 0 < c.1 ∧ c.1 < h.next

instance (h : Heap P) : Decidable h.WF := by
  unfold Heap.WF; infer_instance

/-! ## The submission queue and the submitter (lib.rs:51-182)

io_uring `SubmissionQueue::push_multiple` is all-or-nothing: it fails
with `PushError` iff the free capacity is smaller than the batch, else
it appends every entry.  We model the SQ as its capacity plus the list
of pending (pushed, not yet submitted) entries. -/

/-- The io_uring squeue PushError (a unit-like "queue full" error). -/
inductive PushError where
  | queueFull
deriving DecidableEq, Repr

/-- The kernel submission queue: fixed capacity and pending entries. -/
structure SqState where
  cap : Nat
  pending : List SqEntry
deriving DecidableEq, Repr

/-- io_uring `SubmissionQueue::push_multiple`: append the whole batch if
it fits, else fail and change nothing. -/
def SqState.pushMultiple (sq : SqState) (es : List SqEntry) : Option SqState :=
  if sq.pending.length + es.length ≤ sq.cap then
    some { sq with pending := sq.pending ++ es }
  else
    none

/-- io_uring `SubmissionQueue::push` of a single entry. -/
def SqState.push (sq : SqState) (e : SqEntry) : Option SqState :=
  sq.pushMultiple [e]

/-- The state a `SubmissionQueueSubmitter` borrows (lib.rs:51-66): the
in-flight counter, the SQ, the backlog of entry batches, and the
optional backlog cap (NonZeroUsize modelled as Option Nat). -/
structure SubmitterSt where
  inflight : Nat
  sq : SqState
  backlog : List (List SqEntry)
  backlogLimit : Option Nat
deriving DecidableEq, Repr

/-- `push_multiple_raw` (lib.rs:112-144): push the batch into the SQ and
bump the in-flight counter by the batch size; on SQ overflow spill the
whole batch to the back of the backlog (always when uncapped, and when
`backlog.len() + entries.len() <= limit` when capped), else surface the
kernel push error and leave every component unchanged. -/
def push_multiple_raw (es : List SqEntry) (s : SubmitterSt) :
    Except PushError Unit × SubmitterSt :=
  match s.sq.pushMultiple es with
  | some sq' =>
      (.ok (), { s with sq := sq', inflight := s.inflight + es.length })
  | none =>
      match s.backlogLimit with
      | none => (.ok (), { s with backlog := s.backlog ++ [es] })
      | some limit =>
          if s.backlog.length + es.length ≤ limit then
            (.ok (), { s with backlog := s.backlog ++ [es] })
          else
            (.error .queueFull, s)

/-- `push_slice_raw` (lib.rs:160-181): identical logic for a boxed slice. -/
def push_slice_raw (es : List SqEntry) (s : SubmitterSt) :
    Except PushError Unit × SubmitterSt :=
  match s.sq.pushMultiple es with
  | some sq' =>
      (.ok (), { s with sq := sq', inflight := s.inflight + es.length })
  | none =>
      match s.backlogLimit with
      | none => (.ok (), { s with backlog := s.backlog ++ [es] })
      | some limit =>
          if s.backlog.length + es.length ≤ limit then
            (.ok (), { s with backlog := s.backlog ++ [es] })
          else
            (.error .queueFull, s)

/-- `push_multiple` (lib.rs:99-109): run the wrapper over each
entry/payload pair, then delegate to `push_multiple_raw`.  The wrapper
`W : SqEntry -> D -> SqEntry` models the `Fn(&mut E, D)` closure. -/
def push_multiple (wrapper : SqEntry → D → SqEntry)
    (entries : List SqEntry) (data : List D) (s : SubmitterSt) :
    Except PushError Unit × SubmitterSt :=
  push_multiple_raw ((entries.zip data).map (fun c => wrapper c.1 c.2)) s

/-- `push` (lib.rs:88-91): delegate to `push_multiple` on singleton arrays. -/
def push (wrapper : SqEntry → D → SqEntry) (entry : SqEntry) (d : D)
    (s : SubmitterSt) : Except PushError Unit × SubmitterSt :=
  push_multiple wrapper [entry] [d] s

/-- `push_raw` (lib.rs:93-96): delegate to `push_multiple_raw` on a
singleton array. -/
def push_raw (entry : SqEntry) (s : SubmitterSt) :
    Except PushError Unit × SubmitterSt :=
  push_multiple_raw [entry] s

/-- `push_slice` (lib.rs:151-158): wrap each pair, then `push_slice_raw`. -/
def push_slice (wrapper : SqEntry → D → SqEntry)
    (entries : List SqEntry) (data : List D) (s : SubmitterSt) :
    Except PushError Unit × SubmitterSt :=
  push_slice_raw ((entries.zip data).map (fun c => wrapper c.1 c.2)) s

/-! ## The event loop (macro-generated `Ring::run`, lib.rs:306-454) -/

/-- A completion-queue entry: result code, flags, and the user-data word
copied verbatim from the matching submission. -/
structure Cqe where
  res : Int
  flags : Nat
  userData : Nat
deriving DecidableEq, Repr

/-- `ControlFlow` returned by `on_completion` (lib.rs:12-19). -/
inductive ControlFlow (W C : Type) where
  | Continue
  | Exit
  | Warn (w : W)
  | Error (e : C)
deriving DecidableEq, Repr

/-- `RingError` (lib.rs:236-252); the io::Error payload of `Api` is
reduced to its raw OS code. -/
inductive RingError (S C T : Type) where
  | setup (e : S)
  | completion (e : C)
  | teardown (e : T)
  | api (code : Nat)
  | pushFailed (e : PushError)
deriving DecidableEq, Repr

/-- The loop state a completion-dispatch iteration touches: the
submitter-visible state and the heap of live token boxes. -/
structure OpLoopSt (P : Type) where
  sub : SubmitterSt
  heap : Heap P

/-- Both completion loops start an iteration by decrementing the
in-flight counter unless the MORE flag is set on the CQE
(lib.rs:342-344 and 419-421). -/
def decrementUnlessMore (sub : SubmitterSt) (flags : Nat) : SubmitterSt :=
  { sub with inflight :=
      if moreFlag flags then sub.inflight else sub.inflight - 1 }

/-- What one operational-loop iteration did with its CQE. -/
inductive BodyOutcome (W C : Type) where
  | dropped
  | flowed (f : ControlFlow W C)
  | cancelUnreachable
  | decodeInvalid
deriving DecidableEq, Repr

/-- One iteration of the operational completion loop (lib.rs:340-375):
decrement the in-flight counter unless the MORE flag is set; discard the
CQE when its user-data word is 0; otherwise decode the token.  A
`Cancel` token hits the `unreachable!()` arm; an `op i d` token is
dispatched to the slot-i `on_completion`, which receives a submitter and
returns the control flow plus an optional replacement payload.  With a
replacement the token allocation is overwritten in place and forgotten
(it survives); without one the box is dropped (freed).  A word that is
no live allocation is undefined behaviour in the source and is reported
as `decodeInvalid` here. -/
def ringLoopBody
    (onComp : Nat → Cqe → P → SubmitterSt → (ControlFlow W C × Option P) × SubmitterSt)
    (cqe : Cqe) (st : OpLoopSt P) : OpLoopSt P × BodyOutcome W C :=
  let sub1 := decrementUnlessMore st.sub cqe.flags
  if cqe.userData = 0 then
    (⟨sub1, st.heap⟩, .dropped)
  else
    match st.heap.lookup cqe.userData with
    | none => (⟨sub1, st.heap⟩, .decodeInvalid)
    | some (.cancel _) => (⟨sub1, st.heap⟩, .cancelUnreachable)
    | some (.op i d) =>
        let ((flow, newData), sub2) := onComp i cqe d sub1
        let heap2 :=
          match newData with
          | some d2 => st.heap.update cqe.userData (.op i d2)
          | none => st.heap.free cqe.userData
        (⟨sub2, heap2⟩, .flowed flow)

instance [DecidableEq E] [DecidableEq A] : DecidableEq (Except E A)
  | .error a, .error b =>
      decidable_of_iff (a = b) (by constructor <;> intro h <;> simp_all)
  | .error _, .ok _ => .isFalse (by intro h; cases h)
  | .ok _, .error _ => .isFalse (by intro h; cases h)
  | .ok a, .ok b =>
      decidable_of_iff (a = b) (by constructor <;> intro h <;> simp_all)

/-- What one teardown-loop iteration did with its CQE. -/
inductive TdOutcome (T : Type) where
  | dropped
  | handled (r : Except T Unit)
  | barrier
  | cancelUnreachable
  | decodeInvalid
deriving DecidableEq, Repr

/-- One iteration of the teardown completion loop (lib.rs:417-448):
same counter decrement and zero-word discard; the decoded token is
routed to `on_teardown_completion` and its box dropped; `Cancel(MAX)`
breaks the loop (`barrier`); any other `Cancel` hits `unreachable!()`.
A failed teardown call is recorded by overwriting the result slot with
`RingError::Teardown` (lib.rs:444-447). -/
def teardownLoopBody
    (onTd : Nat → Cqe → P → SubmitterSt → Except T Unit × SubmitterSt)
    (cqe : Cqe) (st : OpLoopSt P) (result : Except (RingError S C T) Unit) :
    OpLoopSt P × Except (RingError S C T) Unit × TdOutcome T :=
  let sub1 := decrementUnlessMore st.sub cqe.flags
  if cqe.userData = 0 then
    (⟨sub1, st.heap⟩, result, .dropped)
  else
    match st.heap.lookup cqe.userData with
    | none => (⟨sub1, st.heap⟩, result, .decodeInvalid)
    | some (.cancel u) =>
        if u = U64_MAX then
          (⟨sub1, st.heap.free cqe.userData⟩, result, .barrier)
        else
          (⟨sub1, st.heap⟩, result, .cancelUnreachable)
    | some (.op i d) =>
        let (tdResult, sub2) := onTd i cqe d sub1
        let result2 :=
          match tdResult with
          | .error e => .error (.teardown e)
          | .ok () => result
        (⟨sub2, st.heap.free cqe.userData⟩, result2, .handled tdResult)

/-- Driving the teardown loop over a list of CQEs in CQ order,
stopping at the drain barrier (lib.rs:412-449, the result slot is the
`result` local of `run`). -/
def teardownDrive
    (onTd : Nat → Cqe → P → SubmitterSt → Except T Unit × SubmitterSt)
    (cqes : List Cqe) (st : OpLoopSt P)
    (result : Except (RingError S C T) Unit) :
    OpLoopSt P × Except (RingError S C T) Unit :=
  match cqes with
  | [] => (st, result)
  | cqe :: rest =>
      let (st1, result1, out) := teardownLoopBody onTd cqe st result
      match out with
      | .barrier => (st1, result1)
      | _ => teardownDrive onTd rest st1 result1

/-- The teardown errors produced while driving the loop, in order,
stopping at the drain barrier: the values successively written into the
result slot by lib.rs:444-447. -/
def teardownDriveErrors
    (onTd : Nat → Cqe → P → SubmitterSt → Except T Unit × SubmitterSt)
    (cqes : List Cqe) (st : OpLoopSt P) : List T :=
  match cqes with
  | [] => []
  | cqe :: rest =>
      let (st1, _, out) :=
        teardownLoopBody (S := Unit) (C := Unit) onTd cqe st (.ok ())
      match out with
      | .barrier => []
      | .handled (.error e) => e :: teardownDriveErrors onTd rest st1
      | _ => teardownDriveErrors onTd rest st1

/-- The backlog drain between submit-wait cycles (lib.rs:330-337): pop
the head batch, try to push it into the SQ wholesale; on failure push
the same batch back to the front and stop; on success advance the
in-flight counter by the batch size and repeat. -/
def drainBacklog (sq : SqState) (backlog : List (List SqEntry))
    (inflight : Nat) : SqState × List (List SqEntry) × Nat :=
  match backlog with
  | [] => (sq, [], inflight)
  | es :: rest =>
      match sq.pushMultiple es with
      | none => (sq, es :: rest, inflight)
      | some sq1 => drainBacklog sq1 rest (inflight + es.length)

/-- The shutdown pushes (lib.rs:393-409): push a cancel-all entry with
user-data 0; build the barrier — a no-op when the in-flight counter is
0, else a `SHUTDOWN_TIMEOUT` timeout with `count = inflight as u32` —
give it the freshly boxed `Cancel(u64::MAX)` token as user-data; push
it; then add 2 to the in-flight counter.  A failed SQ push makes `run`
return immediately (the `?` operator), modelled as `none`.  Returns the
updated SQ, heap, counter, and the barrier entry. -/
def shutdownPushes (inflight : Nat) (sq : SqState) (heap : Heap P) :
    Option (SqState × Heap P × Nat × SqEntry) :=
  let cancel := buildAsyncCancelAny.withUserData 0
  match sq.push cancel with
  | none => none
  | some sq1 =>
      let (w, heap1) := heap.alloc (.cancel U64_MAX)
      let barrier :=
        (match inflight with
         | 0 => buildNop
         | n => buildTimeout SHUTDOWN_TIMEOUT (n % 2 ^ 32)).withUserData w
      match sq1.push barrier with
      | none => none
      | some sq2 => some (sq2, heap1, inflight + 2, barrier)

/-! ## Heap lemmas -/

theorem assocFind_filter_ne (l : List (Nat × Token P)) (w v : Nat)
    (hv : v ≠ w) :
    (l.filter (fun c => c.1 ≠ w)).find? (fun c => c.1 = v) =
      l.find? (fun c => c.1 = v) := by
  induction l with
  | nil => rfl
  | cons c rest ih =>
      by_cases hc : c.1 = w
      · have hcv : ¬ c.1 = v := fun hce => hv (hce ▸ hc : v = w)
        rw [List.filter_cons_of_neg (by simpa using hc),
          List.find?_cons_of_neg _ (by simpa using hcv), ih]
      · rw [List.filter_cons_of_pos (by simpa using hc)]
        by_cases hcv : c.1 = v
        · rw [List.find?_cons_of_pos _ (by simpa using hcv),
            List.find?_cons_of_pos _ (by simpa using hcv)]
        · rw [List.find?_cons_of_neg _ (by simpa using hcv),
            List.find?_cons_of_neg _ (by simpa using hcv), ih]

theorem assocFind_filter_self (l : List (Nat × Token P)) (w : Nat) :
    (l.filter (fun c => c.1 ≠ w)).find? (fun c => c.1 = w) = none := by
  rw [List.find?_eq_none]
  intro c hc
  have := (List.mem_filter.mp hc).2
  simpa using this

theorem assocFind_update_self (l : List (Nat × Token P)) (w : Nat)
    (t : Token P) (c0 : Nat × Token P)
    (hl : l.find? (fun c => c.1 = w) = some c0) :
    (l.map (fun c => if c.1 = w then (w, t) else c)).find?
      (fun c => c.1 = w) = some (w, t) := by
  induction l with
  | nil => simp at hl
  | cons c rest ih =>
      by_cases hc : c.1 = w
      · rw [List.map_cons, if_pos hc]
        exact List.find?_cons_of_pos _ (by simp)
      · rw [List.find?_cons_of_neg _ (by simpa using hc)] at hl
        rw [List.map_cons, if_neg hc,
          List.find?_cons_of_neg _ (by simpa using hc)]
        exact ih hl

theorem assocFind_update_ne (l : List (Nat × Token P)) (w v : Nat)
    (t : Token P) (hv : v ≠ w) :
    (l.map (fun c => if c.1 = w then (w, t) else c)).find?
      (fun c => c.1 = v) = l.find? (fun c => c.1 = v) := by
  induction l with
  | nil => rfl
  | cons c rest ih =>
      by_cases hc : c.1 = w
      · have hcv : ¬ c.1 = v := fun hce => hv (hce ▸ hc : v = w)
        rw [List.map_cons, if_pos hc,
          List.find?_cons_of_neg _ (by simpa using fun hce : w = v => hv hce.symm),
          List.find?_cons_of_neg _ (by simpa using hcv), ih]
      · rw [List.map_cons, if_neg hc]
        by_cases hcv : c.1 = v
        · rw [List.find?_cons_of_pos _ (by simpa using hcv),
            List.find?_cons_of_pos _ (by simpa using hcv)]
        · rw [List.find?_cons_of_neg _ (by simpa using hcv),
            List.find?_cons_of_neg _ (by simpa using hcv), ih]

theorem Heap.lookup_alloc_self (h : Heap P) (t : Token P) :
    (h.alloc t).2.lookup (h.alloc t).1 = some t := by
  simp [Heap.alloc, Heap.lookup, List.find?]

theorem Heap.lookup_alloc_ne (h : Heap P) (t : Token P) (w : Nat)
    (hw : w ≠ h.next) : (h.alloc t).2.lookup w = h.lookup w := by
  simp only [Heap.alloc, Heap.lookup]
  rw [List.find?_cons_of_neg _ (by simpa using fun hc : h.next = w => hw hc.symm)]

theorem Heap.lookup_lt_next (h : Heap P) (w : Nat) (t : Token P)
    (hwf : h.WF) (hl : h.lookup w = some t) : 0 < w ∧ w < h.next := by
  simp only [Heap.lookup, Option.map_eq_some'] at hl
  obtain ⟨c, hc, -⟩ := hl
  have hmem := List.mem_of_find?_eq_some hc
  have heq : c.1 = w := by simpa using List.find?_some hc
  simpa [heq] using hwf c hmem

theorem Heap.lookup_free_self (h : Heap P) (w : Nat) :
    (h.free w).lookup w = none := by
  simp only [Heap.free, Heap.lookup]
  rw [assocFind_filter_self]
  rfl

theorem Heap.lookup_free_ne (h : Heap P) (w v : Nat) (hv : v ≠ w) :
    (h.free w).lookup v = h.lookup v := by
  simp only [Heap.free, Heap.lookup]
  rw [assocFind_filter_ne _ _ _ hv]

theorem Heap.lookup_update_self (h : Heap P) (w : Nat) (t t0 : Token P)
    (hl : h.lookup w = some t0) : (h.update w t).lookup w = some t := by
  simp only [Heap.update, Heap.lookup] at *
  rw [Option.map_eq_some'] at hl
  obtain ⟨c0, hc0, -⟩ := hl
  rw [assocFind_update_self _ _ _ _ hc0]
  rfl

theorem Heap.lookup_update_ne (h : Heap P) (w v : Nat) (t : Token P)
    (hv : v ≠ w) : (h.update w t).lookup v = h.lookup v := by
  simp only [Heap.update, Heap.lookup]
  rw [assocFind_update_ne _ _ _ _ hv]

theorem Heap.WF_alloc (h : Heap P) (t : Token P) (hn : 1 ≤ h.next)
    (hwf : h.WF) : (h.alloc t).2.WF := by
  intro c hc
  simp only [Heap.alloc, List.mem_cons] at hc
  rcases hc with hc | hc
  · subst hc; exact ⟨hn, Nat.lt_succ_self _⟩
  · have := hwf c hc
    exact ⟨this.1, Nat.lt_succ_of_lt this.2⟩

theorem Heap.WF_free (h : Heap P) (w : Nat) (hwf : h.WF) : (h.free w).WF := by
  intro c hc
  exact hwf c (List.mem_of_mem_filter hc)

theorem Heap.WF_update (h : Heap P) (w : Nat) (t : Token P)
    (hw : 0 < w ∧ w < h.next) (hwf : h.WF) : (h.update w t).WF := by
  intro c hc
  simp only [Heap.update, List.mem_map] at hc
  obtain ⟨c0, hc0, hceq⟩ := hc
  by_cases hc1 : c0.1 = w
  · rw [if_pos hc1] at hceq
    subst hceq
    exact hw
  · rw [if_neg hc1] at hceq
    subst hceq
    exact hwf c0 hc0

/-! ## Claim theorems -/

/-- C9: the token codec round-trips.  For every token t (any slot
variant `op i p` and any `cancel u`) and any well-formed heap, decoding
the 64-bit user-data word produced by encoding t (boxing it, lib.rs:
215-234) yields t again, and freeing the decoded value releases exactly
the allocation made by encode: the address no longer resolves and the
rest of the heap is as before. -/
theorem c9_codec_roundtrip (P : Type) (t : Token P) (h : Heap P)
    (hwf : h.WF) :
    (h.alloc t).2.lookup (h.alloc t).1 = some t ∧
    ((h.alloc t).2.free (h.alloc t).1).lookup (h.alloc t).1 = none ∧
    ((h.alloc t).2.free (h.alloc t).1).mem = h.mem := by
  refine ⟨Heap.lookup_alloc_self h t, Heap.lookup_free_self _ _, ?_⟩
  simp only [Heap.alloc, Heap.free, List.filter]
  have hhead : (decide (h.next ≠ h.next)) = false := by simp
  simp only [hhead]
  rw [List.filter_eq_self.mpr]
  intro c hc
  have hlt := (hwf c hc).2
  simpa using Nat.ne_of_lt hlt

/-- C9 witness. -/
theorem c9_codec_roundtrip_witness :
    ((Heap.empty Nat).alloc (.op 0 7)).2.lookup
        ((Heap.empty Nat).alloc (.op 0 7)).1 = some (.op 0 7) ∧
    (((Heap.empty Nat).alloc (.op 0 7)).2.free
        ((Heap.empty Nat).alloc (.op 0 7)).1).lookup
        ((Heap.empty Nat).alloc (.op 0 7)).1 = none ∧
    (((Heap.empty Nat).alloc (.op 0 7)).2.free
        ((Heap.empty Nat).alloc (.op 0 7)).1).mem = (Heap.empty Nat).mem :=
  c9_codec_roundtrip Nat (.op 0 7) (Heap.empty Nat) (by decide)

/-- C10: `push(e, d)` returns the same result and has the same effect on
the SQ, the backlog, and the in-flight counter as
`push_multiple([e], [d])`, and `push_raw(e)` behaves identically to
`push_multiple_raw([e])`.  The source delegates exactly this way
(lib.rs:88-96), so the equalities hold definitionally; the last
conjunct additionally spells out the singleton wrapped batch. -/
theorem c10_push_singleton_equiv (D : Type) (wrapper : SqEntry → D → SqEntry)
    (e : SqEntry) (d : D) (s : SubmitterSt) :
    push wrapper e d s = push_multiple wrapper [e] [d] s ∧
    push_raw e s = push_multiple_raw [e] s ∧
    push wrapper e d s = push_multiple_raw [wrapper e d] s :=
  ⟨rfl, rfl, rfl⟩

/-- C3: spill and overflow behaviour of the push family.  Whenever the
kernel SQ push fails (the batch does not fit), an uncapped backlog
absorbs the whole batch and the call returns success with SQ and
counter untouched; a capped backlog whose cap the incoming batch would
exceed (`backlog.len() + entries.len() > limit`, lib.rs:134) makes the
call return the underlying kernel push error with SQ, backlog, and
in-flight counter all unchanged (the batch is not taken anywhere, i.e.
dropped).  `push` and `push_multiple` delegate to `push_multiple_raw`
on the wrapped batch and `push_slice` to `push_slice_raw`, so the last
conjuncts lift the statement to every entry point. -/
theorem c3_backlog_spill_and_cap (es : List SqEntry) (s : SubmitterSt)
    (hfull : s.sq.pushMultiple es = none) :
    (s.backlogLimit = none →
       push_multiple_raw es s = (.ok (), { s with backlog := s.backlog ++ [es] }) ∧
       push_slice_raw es s = (.ok (), { s with backlog := s.backlog ++ [es] })) ∧
    (∀ limit, s.backlogLimit = some limit →
       limit < s.backlog.length + es.length →
       push_multiple_raw es s = (.error .queueFull, s) ∧
       push_slice_raw es s = (.error .queueFull, s)) ∧
    (∀ (D : Type) (wrapper : SqEntry → D → SqEntry) entries (data : List D),
       push_multiple wrapper entries data s =
         push_multiple_raw ((entries.zip data).map (fun c => wrapper c.1 c.2)) s ∧
       push_slice wrapper entries data s =
         push_slice_raw ((entries.zip data).map (fun c => wrapper c.1 c.2)) s) := by
  refine ⟨?_, ?_, fun D wrapper entries data => ⟨rfl, rfl⟩⟩
  · intro hnone
    constructor <;> simp [push_multiple_raw, push_slice_raw, hfull, hnone]
  · intro limit hsome hover
    have hle : ¬ (s.backlog.length + es.length ≤ limit) := by omega
    constructor <;> simp [push_multiple_raw, push_slice_raw, hfull, hsome, hle]

/-- C3 witness: a full SQ (capacity 0) with an uncapped backlog spills,
and with a zero cap surfaces the push error leaving the state as it
was. -/
theorem c3_backlog_spill_and_cap_witness :
    (push_multiple_raw [buildNop] ⟨0, ⟨0, []⟩, [], none⟩ =
      (.ok (), ⟨0, ⟨0, []⟩, [[buildNop]], none⟩) ∧
     push_slice_raw [buildNop] ⟨0, ⟨0, []⟩, [], none⟩ =
      (.ok (), ⟨0, ⟨0, []⟩, [[buildNop]], none⟩)) ∧
    (push_multiple_raw [buildNop] ⟨0, ⟨0, []⟩, [], some 0⟩ =
      (.error .queueFull, ⟨0, ⟨0, []⟩, [], some 0⟩) ∧
     push_slice_raw [buildNop] ⟨0, ⟨0, []⟩, [], some 0⟩ =
      (.error .queueFull, ⟨0, ⟨0, []⟩, [], some 0⟩)) := by
  constructor
  · exact (c3_backlog_spill_and_cap [buildNop] ⟨0, ⟨0, []⟩, [], none⟩
      (by decide)).1 rfl
  · exact (c3_backlog_spill_and_cap [buildNop] ⟨0, ⟨0, []⟩, [], some 0⟩
      (by decide)).2.1 0 rfl (by decide)

/-- C6: the backlog drain between submit-wait cycles is a head-first
prefix move: there is a k such that exactly the first k batches of the
backlog enter the SQ, appended in order after the existing pending
entries (so all entries of an earlier batch enter the SQ before any
entry of a later batch), the in-flight counter advances by their total
entry count, the remaining backlog is the untouched suffix, and when
that suffix is non-empty its head — the batch whose push failed and
which was restored to the front — still does not fit in the SQ. -/
theorem c6_drain_order_preserving (sq : SqState)
    (backlog : List (List SqEntry)) (inflight : Nat) :
    ∃ k, k ≤ backlog.length ∧
      (drainBacklog sq backlog inflight).1 =
        { sq with pending := sq.pending ++ (backlog.take k).flatten } ∧
      (drainBacklog sq backlog inflight).2.1 = backlog.drop k ∧
      (drainBacklog sq backlog inflight).2.2 =
        inflight + ((backlog.take k).flatten).length ∧
      (∀ es rest, backlog.drop k = es :: rest →
        (drainBacklog sq backlog inflight).1.pushMultiple es = none) := by
  induction backlog generalizing sq inflight with
  | nil =>
      exact ⟨0, by simp [drainBacklog], by simp [drainBacklog], by
        simp [drainBacklog], by simp [drainBacklog], by simp⟩
  | cons es rest ih =>
      cases hpush : sq.pushMultiple es with
      | none =>
          refine ⟨0, by simp, ?_, ?_, ?_, ?_⟩
          · simp [drainBacklog, hpush]
          · simp [drainBacklog, hpush]
          · simp [drainBacklog, hpush]
          · intro es2 rest2 hdrop
            simp only [List.drop_zero] at hdrop
            cases hdrop
            simp [drainBacklog, hpush, hpush]
      | some sq1 =>
          have hsq1 : sq1 = { sq with pending := sq.pending ++ es } := by
            simp only [SqState.pushMultiple] at hpush
            by_cases hfit : sq.pending.length + es.length ≤ sq.cap
            · rw [if_pos hfit] at hpush
              exact (Option.some.injEq _ _ ▸ hpush).symm
            · rw [if_neg hfit] at hpush
              cases hpush
          obtain ⟨k, hk, h1, h2, h3, h4⟩ := ih sq1 (inflight + es.length)
          refine ⟨k + 1, by simpa using hk, ?_, ?_, ?_, ?_⟩
          · rw [show drainBacklog sq (es :: rest) inflight =
              drainBacklog sq1 rest (inflight + es.length) by
                simp [drainBacklog, hpush]]
            rw [h1, hsq1]
            simp [List.take_cons]
          · rw [show drainBacklog sq (es :: rest) inflight =
              drainBacklog sq1 rest (inflight + es.length) by
                simp [drainBacklog, hpush]]
            simpa using h2
          · rw [show drainBacklog sq (es :: rest) inflight =
              drainBacklog sq1 rest (inflight + es.length) by
                simp [drainBacklog, hpush]]
            rw [h3]
            simp [List.take_cons]
            omega
          · intro es2 rest2 hdrop
            rw [show drainBacklog sq (es :: rest) inflight =
              drainBacklog sq1 rest (inflight + es.length) by
                simp [drainBacklog, hpush]]
            exact h4 es2 rest2 (by simpa using hdrop)

/-- C6 witness: capacity 3 with one pending entry takes the first
two singleton batches and restores the third batch (two entries, does
not fit) to the front. -/
theorem c6_drain_order_preserving_witness :
    ∃ k, k ≤ ([[buildNop], [buildNop], [buildNop, buildNop]] :
        List (List SqEntry)).length ∧
      (drainBacklog ⟨3, [buildNop]⟩ [[buildNop], [buildNop],
        [buildNop, buildNop]] 1).1 =
        { cap := 3, pending := [buildNop] ++
          (([[buildNop], [buildNop], [buildNop, buildNop]] :
            List (List SqEntry)).take k).flatten } ∧
      (drainBacklog ⟨3, [buildNop]⟩ [[buildNop], [buildNop],
        [buildNop, buildNop]] 1).2.1 =
        ([[buildNop], [buildNop], [buildNop, buildNop]] :
          List (List SqEntry)).drop k ∧
      (drainBacklog ⟨3, [buildNop]⟩ [[buildNop], [buildNop],
        [buildNop, buildNop]] 1).2.2 =
        1 + ((([[buildNop], [buildNop], [buildNop, buildNop]] :
          List (List SqEntry)).take k).flatten).length ∧
      (∀ es rest, ([[buildNop], [buildNop], [buildNop, buildNop]] :
          List (List SqEntry)).drop k = es :: rest →
        (drainBacklog ⟨3, [buildNop]⟩ [[buildNop], [buildNop],
          [buildNop, buildNop]] 1).1.pushMultiple es = none) :=
  c6_drain_order_preserving ⟨3, [buildNop]⟩
    [[buildNop], [buildNop], [buildNop, buildNop]] 1

/-- C7: a completion entry whose user-data word is 0 is silently
discarded in both loops: the outcome is `dropped`, no handler callback
is consulted (the result is the same for any two handler families, and
the teardown result slot is untouched), the heap of token allocations
is unchanged, yet the in-flight counter is still decremented when the
MORE flag is clear (and left alone when it is set). -/
theorem c7_zero_user_data_dropped (P W C S T : Type) (cqe : Cqe)
    (hz : cqe.userData = 0) (st : OpLoopSt P)
    (onComp onComp2 : Nat → Cqe → P → SubmitterSt →
      (ControlFlow W C × Option P) × SubmitterSt)
    (onTd onTd2 : Nat → Cqe → P → SubmitterSt → Except T Unit × SubmitterSt)
    (result : Except (RingError S C T) Unit) :
    ringLoopBody onComp cqe st =
      (⟨decrementUnlessMore st.sub cqe.flags, st.heap⟩, .dropped) ∧
    ringLoopBody onComp cqe st = ringLoopBody onComp2 cqe st ∧
    teardownLoopBody onTd cqe st result =
      (⟨decrementUnlessMore st.sub cqe.flags, st.heap⟩, result, .dropped) ∧
    teardownLoopBody onTd cqe st result = teardownLoopBody onTd2 cqe st result := by
  refine ⟨?_, ?_, ?_, ?_⟩ <;> simp [ringLoopBody, teardownLoopBody, hz]

/-- C7 witness. -/
theorem c7_zero_user_data_dropped_witness :
    ringLoopBody (W := Unit) (C := Unit)
        (fun _ _ (_p : Nat) sub => ((.Continue, none), sub)) ⟨0, 0, 0⟩
        ⟨⟨4, ⟨8, []⟩, [], none⟩, Heap.empty Nat⟩ =
      (⟨⟨3, ⟨8, []⟩, [], none⟩, Heap.empty Nat⟩, .dropped) ∧
    ringLoopBody (W := Unit) (C := Unit)
        (fun _ _ (_p : Nat) sub => ((.Continue, none), sub)) ⟨0, 0, 0⟩
        ⟨⟨4, ⟨8, []⟩, [], none⟩, Heap.empty Nat⟩ =
      ringLoopBody (fun _ _ _ sub => ((.Exit, none), sub)) ⟨0, 0, 0⟩
        ⟨⟨4, ⟨8, []⟩, [], none⟩, Heap.empty Nat⟩ ∧
    teardownLoopBody (S := Unit) (C := Unit) (T := Nat)
        (fun _ _ (_p : Nat) sub => (.ok (), sub)) ⟨0, 0, 0⟩
        ⟨⟨4, ⟨8, []⟩, [], none⟩, Heap.empty Nat⟩ (.ok ()) =
      (⟨⟨3, ⟨8, []⟩, [], none⟩, Heap.empty Nat⟩, .ok (), .dropped) ∧
    teardownLoopBody (S := Unit) (C := Unit) (T := Nat)
        (fun _ _ (_p : Nat) sub => (.ok (), sub)) ⟨0, 0, 0⟩
        ⟨⟨4, ⟨8, []⟩, [], none⟩, Heap.empty Nat⟩ (.ok ()) =
      teardownLoopBody (fun _ _ _ sub => (.error 1, sub)) ⟨0, 0, 0⟩
        ⟨⟨4, ⟨8, []⟩, [], none⟩, Heap.empty Nat⟩ (.ok ()) := by
  have h := c7_zero_user_data_dropped Nat Unit Unit Unit Nat ⟨0, 0, 0⟩ rfl
    ⟨⟨4, ⟨8, []⟩, [], none⟩, Heap.empty Nat⟩
    (fun _ _ _ sub => ((.Continue, none), sub))
    (fun _ _ _ sub => ((.Exit, none), sub))
    (fun _ _ _ sub => (.ok (), sub))
    (fun _ _ _ sub => (.error 1, sub))
    (.ok ())
  exact ⟨h.1, h.2.1, h.2.2.1, h.2.2.2⟩

/-- C8: dispatch of a decoded `op i d` token in the operational loop
(lib.rs:355-373).  When the slot-i `on_completion` returns a replacement
payload, the token allocation behind the user-data word is overwritten
in place with the slot-i variant holding the new payload and ownership
is relinquished (`mem::forget`): the allocation survives and now
resolves to `op i d2`.  When it returns no replacement, the box is
dropped: the allocation is released and the word no longer resolves. -/
theorem c8_token_reuse_or_release (P W C : Type) (cqe : Cqe)
    (st : OpLoopSt P) (i : Nat) (d : P)
    (onComp : Nat → Cqe → P → SubmitterSt →
      (ControlFlow W C × Option P) × SubmitterSt)
    (hz : cqe.userData ≠ 0)
    (hl : st.heap.lookup cqe.userData = some (.op i d)) :
    (∀ flow d2 sub2,
       onComp i cqe d (decrementUnlessMore st.sub cqe.flags) =
         ((flow, some d2), sub2) →
       ringLoopBody onComp cqe st =
         (⟨sub2, st.heap.update cqe.userData (.op i d2)⟩, .flowed flow) ∧
       (st.heap.update cqe.userData (.op i d2)).lookup cqe.userData =
         some (.op i d2)) ∧
    (∀ flow sub2,
       onComp i cqe d (decrementUnlessMore st.sub cqe.flags) =
         ((flow, none), sub2) →
       ringLoopBody onComp cqe st =
         (⟨sub2, st.heap.free cqe.userData⟩, .flowed flow) ∧
       (st.heap.free cqe.userData).lookup cqe.userData = none) := by
  constructor
  · intro flow d2 sub2 hcall
    refine ⟨?_, st.heap.lookup_update_self cqe.userData (.op i d2) _ hl⟩
    simp [ringLoopBody, hz, hl, hcall]
  · intro flow sub2 hcall
    refine ⟨?_, st.heap.lookup_free_self cqe.userData⟩
    simp [ringLoopBody, hz, hl, hcall]

/-- C8 witness: a single-cell heap holding `op 0 10` at word 1; a
handler returning the replacement payload 11 leaves the allocation in
place holding `op 0 11`. -/
theorem c8_token_reuse_or_release_witness :
    ringLoopBody (W := Unit) (C := Unit)
        (fun _ _ (p : Nat) sub => ((.Continue, some (p + 1)), sub))
        ⟨0, 0, 1⟩ ⟨⟨4, ⟨8, []⟩, [], none⟩, ⟨2, [(1, .op 0 10)]⟩⟩ =
      (⟨⟨3, ⟨8, []⟩, [], none⟩,
        (⟨2, [(1, .op 0 10)]⟩ : Heap Nat).update 1 (.op 0 11)⟩,
       .flowed .Continue) ∧
    ((⟨2, [(1, .op 0 10)]⟩ : Heap Nat).update 1 (.op 0 11)).lookup 1 =
      some (.op 0 11) :=
  (c8_token_reuse_or_release Nat Unit Unit ⟨0, 0, 1⟩
    ⟨⟨4, ⟨8, []⟩, [], none⟩, ⟨2, [(1, .op 0 10)]⟩⟩ 0 10
    (fun _ _ p sub => ((.Continue, some (p + 1)), sub))
    (by decide) (by decide)).1 .Continue 11 ⟨3, ⟨8, []⟩, [], none⟩ rfl

theorem SqState.push_eq_some (sq : SqState) (e : SqEntry) (sq1 : SqState)
    (h : sq.push e = some sq1) :
    sq1 = { sq with pending := sq.pending ++ [e] } := by
  simp only [SqState.push, SqState.pushMultiple] at h
  by_cases hfit : sq.pending.length + [e].length ≤ sq.cap
  · rw [if_pos hfit] at h
    exact (Option.some.injEq _ _ ▸ h).symm
  · rw [if_neg hfit] at h
    cases h

/-- C1 counterexample: at in-flight count 3, an SQ of capacity 8 and the
empty heap, the shutdown sequence does produce the barrier SQE, but its
flags word is 0 — the kernel drain flag (IOSQE_IO_DRAIN) is not set on
it, contrary to the claim that the barrier is marked with the drain
flag (lib.rs:400-407 never calls .flags on the entry). -/
theorem c1_drain_flag_counterexample :
    ((shutdownPushes 3 ⟨8, []⟩ (Heap.empty Nat)).map
      (fun r => r.2.2.2.flags)) = some 0 ∧
    ((shutdownPushes 3 ⟨8, []⟩ (Heap.empty Nat)).map
      (fun r => r.2.2.2.flags &&& IOSQE_IO_DRAIN)) = some 0 ∧
    (shutdownPushes 3 ⟨8, []⟩ (Heap.empty Nat)).isSome = true := by
  refine ⟨rfl, rfl, rfl⟩

/-- C1 amended: whenever the two shutdown pushes succeed, the barrier
SQE pushed right after the cancel-all SQE carries as user-data the
freshly boxed `Cancel(u64::MAX)` sentinel; it carries NO squeue flags
(in particular not the kernel drain flag); it is a no-op when the
in-flight counter is 0 at that moment and otherwise a 5-second timeout
with `count = n mod 2^32` where n is the current in-flight count; and
the counter is then advanced by 2 for the two pushed entries. -/
theorem c1_shutdown_barrier_amended (P : Type) (inflight : Nat)
    (sq sq2 : SqState) (heap heap2 : Heap P) (inflight2 : Nat)
    (barrier : SqEntry)
    (h : shutdownPushes inflight sq heap =
      some (sq2, heap2, inflight2, barrier)) :
    barrier.userData = heap.next ∧
    heap2.lookup barrier.userData = some (.cancel U64_MAX) ∧
    barrier.flags = 0 ∧
    barrier.flags &&& IOSQE_IO_DRAIN = 0 ∧
    barrier.opcode = (if inflight = 0 then .nop
      else .timeout SHUTDOWN_TIMEOUT (inflight % 2 ^ 32)) ∧
    inflight2 = inflight + 2 ∧
    sq2.pending = sq.pending ++ [buildAsyncCancelAny.withUserData 0, barrier] := by
  simp only [shutdownPushes] at h
  cases hc : sq.push (buildAsyncCancelAny.withUserData 0) with
  | none => rw [hc] at h; cases h
  | some sq1 =>
      rw [hc] at h
      simp only [Heap.alloc] at h
      cases hb : sq1.push ((match inflight with
        | 0 => buildNop
        | n => buildTimeout SHUTDOWN_TIMEOUT (n % 2 ^ 32)).withUserData
          heap.next) with
      | none => rw [hb] at h; cases h
      | some sqf =>
          rw [hb] at h
          obtain ⟨h1, h2, h3, h4⟩ :
              sqf = sq2 ∧ (⟨heap.next + 1, (heap.next, Token.cancel U64_MAX)
                :: heap.mem⟩ : Heap P) = heap2 ∧
              inflight + 2 = inflight2 ∧
              (match inflight with
                | 0 => buildNop
                | n => buildTimeout SHUTDOWN_TIMEOUT
                    (n % 2 ^ 32)).withUserData heap.next = barrier := by
            cases h; exact ⟨rfl, rfl, rfl, rfl⟩
          have hflags : barrier.flags = 0 := by
            rw [← h4]
            cases inflight <;> rfl
          have hud : barrier.userData = heap.next := by
            rw [← h4]
            cases inflight <;> rfl
          refine ⟨hud, ?_, hflags, by rw [hflags]; rfl, ?_, h3.symm, ?_⟩
          · rw [hud, ← h2]
            have := Heap.lookup_alloc_self heap (Token.cancel U64_MAX)
            simpa [Heap.alloc] using this
          · rw [← h4]
            cases inflight with
            | zero => rfl
            | succ n => rfl
          · have hsq1 := SqState.push_eq_some sq _ sq1 hc
            have hsqf := SqState.push_eq_some sq1 _ sqf hb
            rw [← h1, hsqf, hsq1, h4]
            simp

/-- C1 amended witness: in-flight 0, SQ of capacity 4, empty heap. -/
theorem c1_shutdown_barrier_amended_witness :
    (⟨.nop, 0, 1⟩ : SqEntry).userData = (Heap.empty Nat).next ∧
    (⟨2, [(1, .cancel U64_MAX)]⟩ : Heap Nat).lookup
      (⟨.nop, 0, 1⟩ : SqEntry).userData = some (.cancel U64_MAX) ∧
    (⟨.nop, 0, 1⟩ : SqEntry).flags = 0 ∧
    (⟨.nop, 0, 1⟩ : SqEntry).flags &&& IOSQE_IO_DRAIN = 0 ∧
    (⟨.nop, 0, 1⟩ : SqEntry).opcode = (if (0 : Nat) = 0 then .nop
      else .timeout SHUTDOWN_TIMEOUT (0 % 2 ^ 32)) ∧
    (2 : Nat) = 0 + 2 ∧
    (⟨4, [buildAsyncCancelAny.withUserData 0, ⟨.nop, 0, 1⟩]⟩ :
      SqState).pending =
      (⟨4, []⟩ : SqState).pending ++
        [buildAsyncCancelAny.withUserData 0, ⟨.nop, 0, 1⟩] :=
  c1_shutdown_barrier_amended Nat 0 ⟨4, []⟩
    ⟨4, [buildAsyncCancelAny.withUserData 0, ⟨.nop, 0, 1⟩]⟩
    (Heap.empty Nat) ⟨2, [(1, .cancel U64_MAX)]⟩ 2 ⟨.nop, 0, 1⟩ rfl

/-- The result-independent part of a teardown-loop iteration: the state
update and the outcome, without the result-slot threading.  This is the
same computation as `teardownLoopBody` (see
`teardownLoopBody_eq_core`); it exists so the sequence of recorded
teardown errors can be defined without fixing the error types. -/
def teardownStepCore
    (onTd : Nat → Cqe → P → SubmitterSt → Except T Unit × SubmitterSt)
    (cqe : Cqe) (st : OpLoopSt P) : OpLoopSt P × TdOutcome T :=
  let sub1 := decrementUnlessMore st.sub cqe.flags
  if cqe.userData = 0 then
    (⟨sub1, st.heap⟩, .dropped)
  else
    match st.heap.lookup cqe.userData with
    | none => (⟨sub1, st.heap⟩, .decodeInvalid)
    | some (.cancel u) =>
        if u = U64_MAX then
          (⟨sub1, st.heap.free cqe.userData⟩, .barrier)
        else
          (⟨sub1, st.heap⟩, .cancelUnreachable)
    | some (.op i d) =>
        let (tdResult, sub2) := onTd i cqe d sub1
        (⟨sub2, st.heap.free cqe.userData⟩, .handled tdResult)

theorem teardownLoopBody_eq_core
    (onTd : Nat → Cqe → P → SubmitterSt → Except T Unit × SubmitterSt)
    (cqe : Cqe) (st : OpLoopSt P)
    (result : Except (RingError S C T) Unit) :
    teardownLoopBody onTd cqe st result =
      ((teardownStepCore onTd cqe st).1,
       (match (teardownStepCore onTd cqe st).2 with
        | .handled (.error e) => .error (.teardown e)
        | _ => result),
       (teardownStepCore onTd cqe st).2) := by
  simp only [teardownLoopBody, teardownStepCore]
  by_cases hz : cqe.userData = 0
  · simp [hz]
  · simp only [hz, if_false]
    cases hl : st.heap.lookup cqe.userData with
    | none => simp
    | some t =>
        cases t with
        | cancel u => by_cases hu : u = U64_MAX <;> simp [hu]
        | op i d =>
            cases htd : onTd i cqe d (decrementUnlessMore st.sub cqe.flags) with
            | mk tdResult sub2 => cases tdResult <;> simp [htd]

/-- The teardown errors produced while driving the loop, in processing
order, stopping at the drain barrier: the successive values written
into the result slot by lib.rs:444-447. -/
def teardownErrorsSeen
    (onTd : Nat → Cqe → P → SubmitterSt → Except T Unit × SubmitterSt)
    (cqes : List Cqe) (st : OpLoopSt P) : List T :=
  match cqes with
  | [] => []
  | cqe :: rest =>
      match (teardownStepCore onTd cqe st).2 with
      | .barrier => []
      | .handled (.error e) =>
          e :: teardownErrorsSeen onTd rest (teardownStepCore onTd cqe st).1
      | _ => teardownErrorsSeen onTd rest (teardownStepCore onTd cqe st).1

/-- C2 counterexample: the operational loop has recorded a completion
error (the result slot holds `Completion 5`, lib.rs:379-381); the
teardown loop then processes a completion whose handler fails with
error 7 and afterwards the drain barrier.  The result slot ends as
`Teardown 7`, not the earlier completion error: the assignment at
lib.rs:446 overwrites unconditionally, so run does NOT return the
completion error as the claim states. -/
theorem c2_error_precedence_counterexample :
    (teardownDrive (P := Nat) (S := Unit) (C := Nat) (T := Nat)
      (fun _ _ _ sub => (.error 7, sub))
      [⟨0, 0, 1⟩, ⟨0, 0, 2⟩]
      ⟨⟨5, ⟨4, []⟩, [], none⟩, ⟨3, [(2, .cancel U64_MAX), (1, .op 0 42)]⟩⟩
      (.error (.completion 5))).2 = .error (.teardown 7) ∧
    (Except.error (.teardown 7) : Except (RingError Unit Nat Nat) Unit) ≠
      .error (.completion 5) := by
  constructor
  · rfl
  · intro h
    cases h

/-- C2 amended: the result slot gives precedence to the LATEST teardown
error, not the earliest error.  Driving the teardown loop folds the
unconditional overwrite of lib.rs:446 over the teardown errors seen
before the barrier: the returned result is the last such error wrapped
as `Teardown`, and only when no teardown error occurred is the earlier
recorded result (e.g. the completion error) returned. -/
theorem c2_error_precedence_amended (P S C T : Type)
    (onTd : Nat → Cqe → P → SubmitterSt → Except T Unit × SubmitterSt)
    (cqes : List Cqe) (st : OpLoopSt P)
    (result : Except (RingError S C T) Unit) :
    (teardownDrive onTd cqes st result).2 =
      (teardownErrorsSeen onTd cqes st).foldl
        (fun _ e => Except.error (RingError.teardown e)) result := by
  induction cqes generalizing st result with
  | nil => rfl
  | cons cqe rest ih =>
      rw [show teardownDrive onTd (cqe :: rest) st result =
        (match (teardownLoopBody onTd cqe st result).2.2 with
         | .barrier => ((teardownLoopBody onTd cqe st result).1,
             (teardownLoopBody onTd cqe st result).2.1)
         | _ => teardownDrive onTd rest
             (teardownLoopBody onTd cqe st result).1
             (teardownLoopBody onTd cqe st result).2.1) from ?_]
      · rw [teardownLoopBody_eq_core]
        rw [show teardownErrorsSeen onTd (cqe :: rest) st =
          (match (teardownStepCore onTd cqe st).2 with
           | .barrier => []
           | .handled (.error e) =>
               e :: teardownErrorsSeen onTd rest (teardownStepCore onTd cqe st).1
           | _ => teardownErrorsSeen onTd rest
               (teardownStepCore onTd cqe st).1) from ?_]
        · cases hout : (teardownStepCore onTd cqe st).2 with
          | barrier => simp
          | dropped => simpa using ih _ _
          | decodeInvalid => simpa using ih _ _
          | cancelUnreachable => simpa using ih _ _
          | handled r =>
              cases r with
              | ok u => cases u; simpa using ih _ _
              | error e => simpa using ih _ _
        · simp only [teardownErrorsSeen]
      · simp only [teardownDrive]

/-- C2 amended witness: with one failing teardown completion before the
barrier, the fold of overwrites yields that teardown error. -/
theorem c2_error_precedence_amended_witness :
    (teardownDrive (P := Nat) (S := Unit) (C := Nat) (T := Nat)
      (fun _ _ _ sub => (.error 9, sub))
      [⟨0, 0, 1⟩, ⟨0, 0, 2⟩]
      ⟨⟨5, ⟨4, []⟩, [], none⟩, ⟨3, [(2, .cancel U64_MAX), (1, .op 0 42)]⟩⟩
      (.error (.completion 5))).2 =
    (teardownErrorsSeen (fun _ _ _ sub => (.error 9, sub))
      [⟨0, 0, 1⟩, ⟨0, 0, 2⟩]
      ⟨⟨5, ⟨4, []⟩, [], none⟩, ⟨3, [(2, .cancel U64_MAX), (1, .op 0 42)]⟩⟩).foldl
        (fun _ e => Except.error (RingError.teardown e))
        (.error (.completion 5)) :=
  c2_error_precedence_amended Nat Unit Nat Nat
    (fun _ _ _ sub => (.error 9, sub))
    [⟨0, 0, 1⟩, ⟨0, 0, 2⟩]
    ⟨⟨5, ⟨4, []⟩, [], none⟩, ⟨3, [(2, .cancel U64_MAX), (1, .op 0 42)]⟩⟩
    (.error (.completion 5))

/-! ## Counting model for the in-flight counter (C4)

The system state is the submitter-visible state plus the number of
terminal completions the kernel still owes for entries it has received.
Each transition is one of the counter-relevant actions of `run`:
a raw push (every submitter entry point funnels into `push_multiple_raw`
or `push_slice_raw`), the backlog drain, the submit syscall handing the
pending SQ entries to the kernel, one received completion (with the
MORE flag set or clear), and the two shutdown pushes. -/

theorem SqState.pushMultiple_eq_some (sq : SqState) (es : List SqEntry)
    (sq1 : SqState) (h : sq.pushMultiple es = some sq1) :
    sq1 = { sq with pending := sq.pending ++ es } := by
  simp only [SqState.pushMultiple] at h
  by_cases hfit : sq.pending.length + es.length ≤ sq.cap
  · rw [if_pos hfit] at h
    exact (Option.some.injEq _ _ ▸ h).symm
  · rw [if_neg hfit] at h
    cases h

theorem push_multiple_raw_effect (es : List SqEntry) (s : SubmitterSt) :
    ((push_multiple_raw es s).2.inflight = s.inflight + es.length ∧
     (push_multiple_raw es s).2.sq.pending = s.sq.pending ++ es) ∨
    ((push_multiple_raw es s).2.inflight = s.inflight ∧
     (push_multiple_raw es s).2.sq = s.sq) := by
  unfold push_multiple_raw
  cases hp : s.sq.pushMultiple es with
  | some sq1 =>
      left
      have := SqState.pushMultiple_eq_some s.sq es sq1 hp
      subst this
      exact ⟨rfl, rfl⟩
  | none =>
      right
      cases hl : s.backlogLimit with
      | none => exact ⟨rfl, rfl⟩
      | some limit =>
          by_cases hfit : s.backlog.length + es.length ≤ limit
          · simp [if_pos hfit]
          · simp [if_neg hfit]

theorem push_slice_raw_effect (es : List SqEntry) (s : SubmitterSt) :
    ((push_slice_raw es s).2.inflight = s.inflight + es.length ∧
     (push_slice_raw es s).2.sq.pending = s.sq.pending ++ es) ∨
    ((push_slice_raw es s).2.inflight = s.inflight ∧
     (push_slice_raw es s).2.sq = s.sq) := by
  unfold push_slice_raw
  cases hp : s.sq.pushMultiple es with
  | some sq1 =>
      left
      have := SqState.pushMultiple_eq_some s.sq es sq1 hp
      subst this
      exact ⟨rfl, rfl⟩
  | none =>
      right
      cases hl : s.backlogLimit with
      | none => exact ⟨rfl, rfl⟩
      | some limit =>
          by_cases hfit : s.backlog.length + es.length ≤ limit
          · simp [if_pos hfit]
          · simp [if_neg hfit]

theorem drainBacklog_counter (sq : SqState) (backlog : List (List SqEntry))
    (inflight : Nat) :
    (drainBacklog sq backlog inflight).2.2 + sq.pending.length =
      inflight + (drainBacklog sq backlog inflight).1.pending.length := by
  induction backlog generalizing sq inflight with
  | nil => simp [drainBacklog, Nat.add_comm]
  | cons es rest ih =>
      cases hp : sq.pushMultiple es with
      | none => simp [drainBacklog, hp, Nat.add_comm]
      | some sq1 =>
          have hsq1 := SqState.pushMultiple_eq_some sq es sq1 hp
          subst hsq1
          have := ih { sq with pending := sq.pending ++ es }
            (inflight + es.length)
          simp only [drainBacklog, hp]
          simp only [List.length_append] at this
          omega

theorem shutdownPushes_counter (P : Type) (inflight : Nat)
    (sq sq2 : SqState) (heap heap2 : Heap P) (inflight2 : Nat)
    (barrier : SqEntry)
    (h : shutdownPushes inflight sq heap =
      some (sq2, heap2, inflight2, barrier)) :
    inflight2 = inflight + 2 ∧
    sq2.pending.length = sq.pending.length + 2 := by
  simp only [shutdownPushes] at h
  cases hc : sq.push (buildAsyncCancelAny.withUserData 0) with
  | none => rw [hc] at h; cases h
  | some sq1 =>
      rw [hc] at h
      simp only [Heap.alloc] at h
      cases hb : sq1.push ((match inflight with
        | 0 => buildNop
        | n => buildTimeout SHUTDOWN_TIMEOUT (n % 2 ^ 32)).withUserData
          heap.next) with
      | none => rw [hb] at h; cases h
      | some sqf =>
          rw [hb] at h
          obtain ⟨h1, -, h3, -⟩ :
              sqf = sq2 ∧ (⟨heap.next + 1, (heap.next, Token.cancel U64_MAX)
                :: heap.mem⟩ : Heap P) = heap2 ∧
              inflight + 2 = inflight2 ∧
              (match inflight with
                | 0 => buildNop
                | n => buildTimeout SHUTDOWN_TIMEOUT
                    (n % 2 ^ 32)).withUserData heap.next = barrier := by
            cases h; exact ⟨rfl, rfl, rfl, rfl⟩
          have hsq1 := SqState.push_eq_some sq _ sq1 hc
          have hsqf := SqState.push_eq_some sq1 _ sqf hb
          refine ⟨h3.symm, ?_⟩
          rw [← h1, hsqf, hsq1]
          simp

/-- The ring-level counting state: submitter state plus the number of
terminal completions the kernel still owes for entries handed to it. -/
structure RingSt where
  sub : SubmitterSt
  kernelPending : Nat
deriving DecidableEq, Repr

/-- The effect of the backlog-drain loop on the submitter state. -/
def drainStepSub (sub : SubmitterSt) : SubmitterSt :=
  { sub with
      sq := (drainBacklog sub.sq sub.backlog sub.inflight).1,
      backlog := (drainBacklog sub.sq sub.backlog sub.inflight).2.1,
      inflight := (drainBacklog sub.sq sub.backlog sub.inflight).2.2 }

/-- The counter-relevant transitions of `run`. -/
inductive RingStep : RingSt → RingSt → Prop where
  | pushRaw (es : List SqEntry) (s : RingSt) :
      RingStep s ⟨(push_multiple_raw es s.sub).2, s.kernelPending⟩
  | pushSlice (es : List SqEntry) (s : RingSt) :
      RingStep s ⟨(push_slice_raw es s.sub).2, s.kernelPending⟩
  | drain (s : RingSt) :
      RingStep s ⟨drainStepSub s.sub, s.kernelPending⟩
  | submit (s : RingSt) :
      RingStep s ⟨{ s.sub with sq := { s.sub.sq with pending := [] } },
        s.kernelPending + s.sub.sq.pending.length⟩
  | completeTerminal (s : RingSt) (h : 1 ≤ s.kernelPending) :
      RingStep s ⟨{ s.sub with inflight := s.sub.inflight - 1 },
        s.kernelPending - 1⟩
  | completeMore (s : RingSt) (h : 1 ≤ s.kernelPending) :
      RingStep s s
  | shutdown (s : RingSt) (heap : Heap Unit) (sq2 : SqState)
      (heap2 : Heap Unit) (inflight2 : Nat) (barrier : SqEntry)
      (h : shutdownPushes s.sub.inflight s.sub.sq heap =
        some (sq2, heap2, inflight2, barrier)) :
      RingStep s ⟨{ s.sub with sq := sq2, inflight := inflight2 },
        s.kernelPending⟩

/-- The states `run` can reach, starting from a fresh ring
(`Ring::new`, lib.rs:290-298: counter 0, empty backlog, empty SQ). -/
inductive RingReachable : RingSt → Prop where
  | init (cap : Nat) (limit : Option Nat) :
      RingReachable ⟨⟨0, ⟨cap, []⟩, [], limit⟩, 0⟩
  | step (s s2 : RingSt) (h1 : RingReachable s) (h2 : RingStep s s2) :
      RingReachable s2

/-- The number of terminal completions still owed by the kernel for
entries handed to the SQ: entries pending in the SQ (the SQ is
kernel-shared memory; the counter is bumped at push time, before the
submit syscall) plus completions owed for already submitted entries. -/
def owedCompletions (s : RingSt) : Nat :=
  s.sub.sq.pending.length + s.kernelPending

/-- C4: in every reachable state the in-flight counter equals the
number of terminal completions still owed for entries handed to the SQ
(`owedCompletions`).  The conjuncts spell out the counter mechanism on
the push path: a successful SQ push adds the batch size, while a spill
to the backlog (or a refused batch) leaves the counter unchanged; the
step relation likewise advances the counter on backlog drain
(lib.rs:336) and decrements it exactly on completions with the MORE
flag clear. -/
theorem c4_inflight_counter (s : RingSt) (h : RingReachable s) :
    s.sub.inflight = owedCompletions s ∧
    (∀ es (sub : SubmitterSt) sq1, sub.sq.pushMultiple es = some sq1 →
      (push_multiple_raw es sub).2.inflight = sub.inflight + es.length) ∧
    (∀ es (sub : SubmitterSt), sub.sq.pushMultiple es = none →
      (push_multiple_raw es sub).2.inflight = sub.inflight) := by
  refine ⟨?_, ?_, ?_⟩
  · unfold owedCompletions
    induction h with
    | init cap limit => rfl
    | step s1 s2 h1 h2 ih =>
        cases h2 with
        | pushRaw es s1 =>
            rcases push_multiple_raw_effect es s1.sub with ⟨hi, hp⟩ | ⟨hi, hp⟩
            · simp only [hi, hp, List.length_append]
              omega
            · simp only [hi, hp]
              omega
        | pushSlice es s1 =>
            rcases push_slice_raw_effect es s1.sub with ⟨hi, hp⟩ | ⟨hi, hp⟩
            · simp only [hi, hp, List.length_append]
              omega
            · simp only [hi, hp]
              omega
        | drain s1 =>
            have := drainBacklog_counter s1.sub.sq s1.sub.backlog
              s1.sub.inflight
            simp only [drainStepSub]
            omega
        | submit s1 => simp only [List.length_nil]; omega
        | completeTerminal s1 hk => simp only []; omega
        | completeMore s1 hk => omega
        | shutdown s1 heap sq2 heap2 inflight2 barrier hs =>
            have := shutdownPushes_counter Unit s1.sub.inflight s1.sub.sq
              sq2 heap heap2 inflight2 barrier hs
            simp only []
            omega
  · intro es sub sq1 hp
    simp [push_multiple_raw, hp]
  · intro es sub hp
    unfold push_multiple_raw
    rw [hp]
    cases hl : sub.backlogLimit with
    | none => rfl
    | some limit =>
        by_cases hfit : sub.backlog.length + es.length ≤ limit
        · simp only [if_pos hfit]
        · simp only [if_neg hfit]

/-- C4 witness: a fresh ring of capacity 4 after one successful raw
push of a single no-op. -/
theorem c4_inflight_counter_witness :
    ((⟨(push_multiple_raw [buildNop]
        (⟨⟨0, ⟨4, []⟩, [], none⟩, 0⟩ : RingSt).sub).2, 0⟩ :
      RingSt).sub.inflight =
      owedCompletions ⟨(push_multiple_raw [buildNop]
        (⟨⟨0, ⟨4, []⟩, [], none⟩, 0⟩ : RingSt).sub).2, 0⟩) ∧
    (push_multiple_raw [buildNop]
      (⟨0, ⟨4, []⟩, [], none⟩ : SubmitterSt)).2.inflight =
      0 + [buildNop].length ∧
    (push_multiple_raw [buildNop]
      (⟨0, ⟨0, []⟩, [], none⟩ : SubmitterSt)).2.inflight = 0 :=
  have h := c4_inflight_counter _
    (RingReachable.step _ _ (RingReachable.init 4 none)
      (RingStep.pushRaw [buildNop] _))
  ⟨h.1, h.2.1 [buildNop] ⟨0, ⟨4, []⟩, [], none⟩ ⟨4, [buildNop]⟩ rfl,
    h.2.2 [buildNop] ⟨0, ⟨0, []⟩, [], none⟩ rfl⟩

/-! ## Token-provenance model (C5)

The state tracks the heap of live token boxes, the multiset of
user-data words attached to submissions whose completions are still to
be delivered, and whether the shutdown protocol has started.  The
transitions are the token-relevant actions of `run`: a wrapped push
(the submitter closure encodes an `op` token for the bound slot,
lib.rs:301-303, 315-323, 356-365: the ONLY tokens handlers can push),
a raw push with word 0 or with a sibling `op` token (the `push_raw`
contract), delivery of a completion (discarded, freed, or reused in
place), and the one-time shutdown push of the boxed `Cancel(u64::MAX)`
barrier together with the zero-worded cancel-all entry
(lib.rs:393-409). -/

/-- Provenance state: heap of live token boxes, user-data words of
submissions whose completions are still outstanding, shutdown flag. -/
structure TokSt (P : Type) where
  heap : Heap P
  words : List Nat
  teardown : Bool

/-- The token-relevant transitions of `run`. -/
inductive TokStep (P : Type) : TokSt P → TokSt P → Prop where
  | pushOp (s : TokSt P) (i : Nat) (p : P) :
      TokStep P s ⟨(s.heap.alloc (.op i p)).2,
        (s.heap.alloc (.op i p)).1 :: s.words, s.teardown⟩
  | pushRawZero (s : TokSt P) :
      TokStep P s ⟨s.heap, 0 :: s.words, s.teardown⟩
  | pushRawSibling (s : TokSt P) (w i : Nat) (p : P)
      (h : s.heap.lookup w = some (.op i p)) :
      TokStep P s ⟨s.heap, w :: s.words, s.teardown⟩
  | deliverZero (s : TokSt P) (h : 0 ∈ s.words) :
      TokStep P s ⟨s.heap, s.words.erase 0, s.teardown⟩
  | deliverOpFree (s : TokSt P) (w i : Nat) (d : P) (hw : w ∈ s.words)
      (hl : s.heap.lookup w = some (.op i d)) :
      TokStep P s ⟨s.heap.free w, s.words.erase w, s.teardown⟩
  | deliverOpReuse (s : TokSt P) (w i : Nat) (d d2 : P) (hw : w ∈ s.words)
      (hl : s.heap.lookup w = some (.op i d)) :
      TokStep P s ⟨s.heap.update w (.op i d2), s.words, s.teardown⟩
  | startShutdown (s : TokSt P) (h : s.teardown = false) :
      TokStep P s ⟨(s.heap.alloc (.cancel U64_MAX)).2,
        (s.heap.alloc (.cancel U64_MAX)).1 :: 0 :: s.words, true⟩
  | deliverBarrier (s : TokSt P) (w u : Nat) (hw : w ∈ s.words)
      (hl : s.heap.lookup w = some (.cancel u)) :
      TokStep P s ⟨s.heap.free w, s.words.erase w, s.teardown⟩

/-- States reachable from a fresh ring: empty heap, no outstanding
words, operational phase. -/
inductive TokReachable (P : Type) : TokSt P → Prop where
  | init : TokReachable P ⟨Heap.empty P, [], false⟩
  | step (s s2 : TokSt P) (h1 : TokReachable P s) (h2 : TokStep P s s2) :
      TokReachable P s2

/-- The provenance invariant: the address counter never returns to 0,
the heap is well-formed, and every outstanding word that resolves to a
live token resolves either to a slot token or — only once shutdown has
started — to the `Cancel(u64::MAX)` barrier sentinel. -/
def TokInv (s : TokSt P) : Prop :=
  1 ≤ s.heap.next ∧ s.heap.WF ∧
  ∀ w ∈ s.words, ∀ t, s.heap.lookup w = some t →
    (∃ i p, t = Token.op i p) ∨ (s.teardown = true ∧ t = .cancel U64_MAX)

theorem tokInv_step (s s2 : TokSt P) (hstep : TokStep P s s2)
    (hinv : TokInv s) : TokInv s2 := by
  obtain ⟨hn, hwf, hwords⟩ := hinv
  cases hstep with
  | pushOp i p =>
      refine ⟨Nat.le_succ_of_le hn, Heap.WF_alloc s.heap _ hn hwf, ?_⟩
      intro w hw t hl
      dsimp only at hw hl ⊢
      have hself : (s.heap.alloc (Token.op i p)).2.lookup s.heap.next =
          some (Token.op i p) := Heap.lookup_alloc_self s.heap (Token.op i p)
      rcases List.mem_cons.mp hw with hw1 | hw2
      · subst hw1
        rw [Heap.lookup_alloc_self] at hl
        cases hl
        exact Or.inl ⟨i, p, rfl⟩
      · by_cases hwn : w = s.heap.next
        · subst hwn
          rw [hself] at hl
          cases hl
          exact Or.inl ⟨i, p, rfl⟩
        · rw [Heap.lookup_alloc_ne s.heap _ w hwn] at hl
          exact hwords w hw2 t hl
  | pushRawZero =>
      refine ⟨hn, hwf, ?_⟩
      intro w hw t hl
      dsimp only at hw hl ⊢
      rcases List.mem_cons.mp hw with hw1 | hw2
      · subst hw1
        have := Heap.lookup_lt_next s.heap 0 t hwf hl
        omega
      · exact hwords w hw2 t hl
  | pushRawSibling w0 i p h =>
      refine ⟨hn, hwf, ?_⟩
      intro w hw t hl
      dsimp only at hw hl ⊢
      rcases List.mem_cons.mp hw with hw1 | hw2
      · subst hw1
        rw [h] at hl
        cases hl
        exact Or.inl ⟨i, p, rfl⟩
      · exact hwords w hw2 t hl
  | deliverZero h =>
      refine ⟨hn, hwf, ?_⟩
      intro w hw t hl
      dsimp only at hw hl ⊢
      exact hwords w (List.mem_of_mem_erase hw) t hl
  | deliverOpFree w0 i d hw0 hl0 =>
      refine ⟨hn, Heap.WF_free s.heap w0 hwf, ?_⟩
      intro w hw t hl
      dsimp only at hw hl ⊢
      by_cases hww : w = w0
      · subst hww
        rw [Heap.lookup_free_self] at hl
        cases hl
      · rw [Heap.lookup_free_ne s.heap w0 w hww] at hl
        exact hwords w (List.mem_of_mem_erase hw) t hl
  | deliverOpReuse w0 i d d2 hw0 hl0 =>
      have hbound := Heap.lookup_lt_next s.heap w0 _ hwf hl0
      refine ⟨hn, Heap.WF_update s.heap w0 _ hbound hwf, ?_⟩
      intro w hw t hl
      dsimp only at hw hl ⊢
      by_cases hww : w = w0
      · subst hww
        rw [Heap.lookup_update_self s.heap w _ _ hl0] at hl
        cases hl
        exact Or.inl ⟨i, d2, rfl⟩
      · rw [Heap.lookup_update_ne s.heap w0 w _ hww] at hl
        exact hwords w hw t hl
  | startShutdown h =>
      refine ⟨Nat.le_succ_of_le hn, Heap.WF_alloc s.heap _ hn hwf, ?_⟩
      intro w hw t hl
      dsimp only at hw hl ⊢
      have hself : (s.heap.alloc (Token.cancel U64_MAX)).2.lookup
          s.heap.next = some (Token.cancel U64_MAX) :=
        Heap.lookup_alloc_self s.heap (Token.cancel U64_MAX)
      rcases List.mem_cons.mp hw with hw1 | hw2
      · subst hw1
        rw [Heap.lookup_alloc_self] at hl
        cases hl
        exact Or.inr ⟨rfl, rfl⟩
      · by_cases hwn : w = s.heap.next
        · subst hwn
          rw [hself] at hl
          cases hl
          exact Or.inr ⟨rfl, rfl⟩
        · rw [Heap.lookup_alloc_ne s.heap _ w hwn] at hl
          rcases List.mem_cons.mp hw2 with hw3 | hw4
          · subst hw3
            have := Heap.lookup_lt_next s.heap 0 t hwf hl
            omega
          · rcases hwords w hw4 t hl with hop | ⟨htd, -⟩
            · exact Or.inl hop
            · rw [h] at htd
              cases htd
  | deliverBarrier w0 u hw0 hl0 =>
      refine ⟨hn, Heap.WF_free s.heap w0 hwf, ?_⟩
      intro w hw t hl
      dsimp only at hw hl ⊢
      by_cases hww : w = w0
      · subst hww
        rw [Heap.lookup_free_self] at hl
        cases hl
      · rw [Heap.lookup_free_ne s.heap w0 w hww] at hl
        exact hwords w (List.mem_of_mem_erase hw) t hl


theorem tokInv_reachable (s : TokSt P) (h : TokReachable P s) : TokInv s := by
  induction h with
  | init =>
      refine ⟨Nat.le_refl 1, ?_, ?_⟩
      · intro c hc
        cases hc
      · intro w hw
        cases hw
  | step s1 s2 h1 h2 ih => exact tokInv_step s1 s2 h2 ih

/-- C5: in every reachable state, no outstanding completion word
decodes to a Cancel token while the ring is still in its operational
phase (so the Cancel arm of the operational dispatch, marked
unreachable, can
never be reached, lib.rs:374), and once the teardown loop runs, any
word that decodes to `Cancel(v)` has v = u64::MAX — the barrier pushed
at shutdown is the only Cancel token ever in flight (lib.rs:440-441). -/
theorem c5_no_stray_cancel_tokens (P : Type) (s : TokSt P)
    (h : TokReachable P s) :
    (s.teardown = false → ∀ w ∈ s.words, ∀ u,
       s.heap.lookup w ≠ some (.cancel u)) ∧
    (∀ w ∈ s.words, ∀ u,
       s.heap.lookup w = some (.cancel u) → u = U64_MAX) := by
  obtain ⟨-, -, hwords⟩ := tokInv_reachable s h
  constructor
  · intro hop w hw u hl
    rcases hwords w hw _ hl with ⟨i, p, hip⟩ | ⟨htd, -⟩
    · cases hip
    · rw [hop] at htd
      cases htd
  · intro w hw u hl
    rcases hwords w hw _ hl with ⟨i, p, hip⟩ | ⟨-, hmax⟩
    · cases hip
    · cases hmax
      rfl

/-- C5 witness: after one wrapped push of `op 0 5` the outstanding word
1 does not decode to any Cancel token in the operational phase; after
shutdown additionally pushes the boxed barrier, word 2 does decode to
`Cancel(u64::MAX)` and the theorem pins its payload to MAX. -/
theorem c5_no_stray_cancel_tokens_witness :
    ((⟨2, [(1, .op 0 5)]⟩ : Heap Nat).lookup 1 ≠ some (.cancel 0)) ∧
    (⟨3, [(2, .cancel U64_MAX), (1, .op 0 5)]⟩ : Heap Nat).lookup 2 =
      some (.cancel U64_MAX) ∧
    U64_MAX = U64_MAX := by
  refine ⟨?_, rfl, ?_⟩
  · exact (c5_no_stray_cancel_tokens Nat
      ⟨⟨2, [(1, .op 0 5)]⟩, [1], false⟩
      (TokReachable.step _ _ TokReachable.init
        (TokStep.pushOp _ 0 5))).1 rfl 1 (by simp) 0
  · exact (c5_no_stray_cancel_tokens Nat
      ⟨⟨3, [(2, .cancel U64_MAX), (1, .op 0 5)]⟩, [2, 0, 1], true⟩
      (TokReachable.step _ _
        (TokReachable.step _ _ TokReachable.init (TokStep.pushOp _ 0 5))
        (TokStep.startShutdown _ rfl))).2 2 (by simp) U64_MAX rfl

end Rummelplatz
